import Mathlib

/-!
Shallow embedding of `src/pinvirt.py` (the most developed revision of the
Pinvirt utility) and proofs about the properties its specification claims.

Conventions used throughout:
* Python `int` is modelled as `Int` (arbitrary precision in both).
* Python `sorted` / `list.sort()` is a stable comparison sort; its output is
  uniquely determined by the key function and stability, so it is modelled by
  `List.insertionSort` (also stable), which kernel-evaluates.
* Python `set` values are modelled as `List` values that are only ever
  observed through membership.
* Python `dict` (insertion ordered) is modelled as an association list; a
  fresh key is appended at the end, exactly as CPython does.
* Functions that print an error and call `sys.exit` are modelled with
  `Except`, the error constructor recording which exit path was taken.
-/

namespace Pinvirt

/-- `PinningMap = Dict[str, List[int]]` from the source, as an insertion
ordered association list (CPython dicts preserve insertion order). -/
abbrev PinningMap := List (String × List Int)

/-- `CpuInfo = List[Tuple[int, int, int]]` from the source:
`(logical_cpu, core_id, socket_id)`. -/
abbrev CpuInfo := List (Int × Int × Int)

/-! ### Python builtin behaviour used by the source

Python `str` values are sequences of code points; the Lean `String` carrier
is used, with the operations the source needs implemented structurally over
`String.data` (Lean's own `trim`/`splitOn`/`startsWith` recurse on byte
positions, which the kernel cannot evaluate). -/

/-- The ASCII whitespace characters `str.strip()` removes.  (Python also
strips other Unicode whitespace; none appears in this program's data.) -/
def isPySpace (c : Char) : Bool :=
  c = ' ' || c = '\t' || c = '\n' || c = '\r' || c = '\x0b' || c = '\x0c'

/-- Python's `s.strip()`: remove leading and trailing whitespace. -/
def pyStrip (s : String) : String :=
  String.mk (((s.data.dropWhile isPySpace).reverse.dropWhile isPySpace).reverse)

/-- Helper for `s.split(",")`: split a character list at every separator
occurrence, keeping empty pieces, `acc` holding the current piece
reversed. -/
def splitCommaAux (acc : List Char) : List Char → List (List Char)
  | [] => [acc.reverse]
  | c :: rest =>
      if c = ',' then acc.reverse :: splitCommaAux [] rest
      else splitCommaAux (c :: acc) rest

/-- Python's `s.split(",")`: split at every comma, keeping empty pieces
(`"".split(",") == [""]`, `"a,,b".split(",") == ["a","","b"]`). -/
def pySplitComma (s : String) : List String :=
  (splitCommaAux [] s.data).map String.mk

/-- Python's `s.startswith("#")`. -/
def pyStartsWithHash (s : String) : Bool :=
  match s.data with
  | '#' :: _ => true
  | [] => false
  | _ :: _ => false

/-- Value of a decimal digit character. -/
def digitVal (c : Char) : Nat := c.toNat - '0'.toNat

/-- Decimal value of a digit string. -/
def digitsToNat (ds : List Char) : Nat :=
  ds.foldl (fun a c => a * 10 + digitVal c) 0

/-- Python's `int(s)` on a string: surrounding whitespace is stripped, an
optional single `+`/`-` sign is allowed, and at least one decimal digit must
follow; any other content raises `ValueError`, modelled as `none`.
(Python additionally accepts single underscores between digits since 3.6;
no input in this development or in the program's data sources uses them.) -/
def pyInt (s : String) : Option Int :=
  let t := (pyStrip s).data
  match t with
  | '-' :: ds =>
      if ds ≠ [] ∧ ds.all Char.isDigit then some (-(digitsToNat ds : Int)) else none
  | '+' :: ds =>
      if ds ≠ [] ∧ ds.all Char.isDigit then some (digitsToNat ds : Int) else none
  | ds =>
      if ds ≠ [] ∧ ds.all Char.isDigit then some (digitsToNat ds : Int) else none

/-- Python's slice `l[:n]` for an `int` bound `n`: a non-negative bound keeps
the first `n` elements (saturating), a negative bound drops `-n` elements
from the end (saturating). -/
def pySlice {α : Type} (l : List α) (n : Int) : List α :=
  if 0 ≤ n then l.take n.toNat else l.take (l.length - (-n).toNat)

/-- The comparison used by Python's `sorted` on `int` values. -/
def intLe (a b : Int) : Prop := a ≤ b

instance : DecidableRel intLe := fun a b => inferInstanceAs (Decidable (a ≤ b))

instance : IsTotal Int intLe := ⟨fun a b => Int.le_total a b⟩

instance : IsTrans Int intLe := ⟨fun _ _ _ h h' => le_trans h h'⟩

instance : IsAntisymm Int intLe := ⟨fun _ _ h h' => le_antisymm h h'⟩

/-- Python's `sorted` on a list of `int`: a stable sort by `≤` (its output is
uniquely determined by that, so the stable `insertionSort` models it). -/
def pySortedInt (l : List Int) : List Int := List.insertionSort intLe l

/-! ### Assignment store (`load_pinning` / `save_pinning`)

The store keeps a `PinningMap` in a JSON file.  The program only observes the
file through `json.load`, so the file is modelled by the result of parsing
its text: absent, invalid (text that is not JSON — e.g. the remains of an
interrupted write), or a parsed JSON document. -/

/-- JSON documents, as produced by `json.dump` and consumed by `json.load`
for the value shapes this program stores. -/
inductive Json where
  | num (n : Int)
  | str (s : String)
  | arr (elems : List Json)
  | obj (members : List (String × Json))

/-- The JSON document `json.dump` writes for a `PinningMap`: an object whose
members are the dict entries in insertion order, each value an array of
numbers. -/
def dumpJson (data : PinningMap) : Json :=
  Json.obj (data.map fun kv => (kv.1, Json.arr (kv.2.map Json.num)))

/-- Reading a JSON array back as the Python list of ints it decodes to;
`none` when some element is not a number. -/
def intsOfJson : List Json → Option (List Int)
  | [] => some []
  | Json.num n :: rest => (intsOfJson rest).map (fun l => n :: l)
  | _ :: _ => none

/-- Reading JSON object members back as the Python dict entries they decode
to; `none` when some value is not an array of numbers. -/
def pinningEntriesOfJson : List (String × Json) → Option PinningMap
  | [] => some []
  | (k, Json.arr xs) :: rest =>
      match intsOfJson xs, pinningEntriesOfJson rest with
      | some l, some m => some ((k, l) :: m)
      | _, _ => none
  | _ :: _ => none

/-- The `PinningMap` a parsed JSON document denotes, when it has the
`Dict[str, List[int]]` shape (`json.load` performs no validation; a document
of any other shape is never produced by this program's own writes and is
modelled as `none`). -/
def pinningOfJson : Json → Option PinningMap
  | Json.obj members => pinningEntriesOfJson members
  | _ => none

/-- The pinning file as the program can observe it: missing, holding text
that does not parse as JSON, or holding a JSON document. -/
inductive FileState where
  | missing
  | invalid
  | json (doc : Json)

/-- `save_pinning(data)`: the source opens `PINNING_FILE` with mode `"w"`,
which truncates the file in place before any byte of the new serialization
is written, then `json.dump`s `data` into it.  There is no
write-to-temp-then-rename step.  `writeFails` injects an `IOError` during
the write: the file is then left holding a proper prefix of the
serialization, which is never valid JSON (the opening brace of the object is
unbalanced in every proper prefix), and the function prints an error and
calls `sys.exit(1)` — the `Bool` component is `false` on that path and
`true` on normal return.  The prior file state `fs` is discarded by the
truncating open in both cases. -/
def save_pinning (data : PinningMap) (writeFails : Bool) (fs : FileState) :
    FileState × Bool :=
  match fs with
  | _ =>
    if writeFails then (FileState.invalid, false)
    else (FileState.json (dumpJson data), true)

/-- `load_pinning()`: returns `{}` when the file does not exist, the parsed
document when it is valid JSON, and `{}` (after a printed error) when
`json.load` raises `JSONDecodeError`.  The result is `some` the mapping the
returned Python value denotes; `none` models a parsed document that is not a
`Dict[str, List[int]]`, which this program never writes. -/
def load_pinning (fs : FileState) : Option PinningMap :=
  match fs with
  | FileState.missing => some []
  | FileState.invalid => some []
  | FileState.json doc => pinningOfJson doc

/-- `get_used_logical_cpus(pinning_data)`: the union of all assigned CPU
lists.  The source returns a `set`; this list is only ever observed through
membership, which coincides with the set union. -/
def get_used_logical_cpus (pinning_data : PinningMap) : List Int :=
  (pinning_data.map (fun kv => kv.2)).flatten

/-! ### Topology parsing (`get_cpu_topology`)

The subprocess invocation of `lscpu` (and its `SourceUnavailable` failure
modes) is outside the embedding; the parsing loop operates on the list of
output lines (`output.splitlines()`). -/

/-- The parsing loop's state: the topology built so far, the
`parsed_cpus` set of logical ids already seen, and the lines for which a
`[WARN] Skipping invalid line` message has been printed. -/
structure ParseState where
  topology : CpuInfo
  parsed_cpus : List Int
  warnings : List String

/-- One iteration of the parsing loop in `get_cpu_topology`: comment lines
(starting with `#`) are skipped; the line is stripped and split on `,`;
only lines with exactly three fields are considered (others are skipped
silently); `map(int, parts)` failing with `ValueError` prints a warning and
skips the line; a `logical_cpu` already in `parsed_cpus` is dropped. -/
def processTopologyLine (st : ParseState) (line : String) : ParseState :=
  if pyStartsWithHash line then st
  else
    match pySplitComma (pyStrip line) with
    | [a, b, c] =>
        match pyInt a, pyInt b, pyInt c with
        | some logical_cpu, some core_id, some socket_id =>
            if logical_cpu ∈ st.parsed_cpus then st
            else
              { st with
                topology := st.topology ++ [(logical_cpu, core_id, socket_id)],
                parsed_cpus := st.parsed_cpus ++ [logical_cpu] }
        | _, _, _ => { st with warnings := st.warnings ++ [line] }
    | _ => st

/-- `TopologyError{Empty}`: the source exits with an error when no valid
record was parsed. -/
inductive TopologyError where
  | empty
deriving DecidableEq

/-- The parsing part of `get_cpu_topology`, over the lines of the `lscpu`
output: folds the loop body over the lines and fails iff the resulting
topology is empty.  On success it returns the topology together with the
list of lines that were warned about. -/
def get_cpu_topology (lines : List String) :
    Except TopologyError (CpuInfo × List String) :=
  let st := lines.foldl processTopologyLine ⟨[], [], []⟩
  if st.topology = [] then Except.error TopologyError.empty
  else Except.ok (st.topology, st.warnings)

/-! ### Allocator (`generate_cpu_allocation`) -/

/-- The typed outcome of the `sys.exit` paths of `generate_cpu_allocation`:
`noSuchSocket` is the `exit(1)` after "Target socket ... does not exist",
`insufficientCores` the `exit(2)` after "Not enough available ..." (either
strategy), and `internalError` the defensive `exit(2)` at the end of the
hyperthreading strategy. -/
inductive AllocError where
  | noSuchSocket
  | insufficientCores
  | internalError
deriving DecidableEq

/-- `available_sockets = {socket_id for _, _, socket_id in cpu_topology}`;
a list observed only through membership, like the Python set. -/
def available_sockets (cpu_topology : CpuInfo) : List Int :=
  cpu_topology.map (fun e => e.2.2)

/-- The validation at the top of `generate_cpu_allocation`:
`target_socket is not None and target_socket not in available_sockets`. -/
def invalidTargetSocket (cpu_topology : CpuInfo) (target_socket : Option Int) :
    Bool :=
  match target_socket with
  | some ts => decide (ts ∉ available_sockets cpu_topology)
  | none => false

/-- The first `continue` of the build loop: when a target socket is given
and multi-socket is not allowed, entries of other sockets are skipped. -/
def skipBySocket (target_socket : Option Int) (allow_multi_socket : Bool)
    (socket_id : Int) : Bool :=
  match target_socket with
  | none => false
  | some ts => !allow_multi_socket && socket_id != ts

/-- `available_cores[core_key].append(logical_cpu)` on the insertion-ordered
dict `available_cores`, creating the key at the end when absent. -/
def addToCore (m : List ((Int × Int) × List Int)) (core_key : Int × Int)
    (logical_cpu : Int) : List ((Int × Int) × List Int) :=
  match m with
  | [] => [(core_key, [logical_cpu])]
  | (k, v) :: rest =>
      if k = core_key then (k, v ++ [logical_cpu]) :: rest
      else (k, v) :: addToCore rest core_key logical_cpu

/-- One iteration of the build loop of `generate_cpu_allocation`: skip by
socket filter, skip used CPUs, otherwise bucket the logical id under
`(socket_id, core_id)` and count it. -/
def buildStep (target_socket : Option Int) (allow_multi_socket : Bool)
    (used_cpus : List Int) (acc : List ((Int × Int) × List Int) × Nat)
    (e : Int × Int × Int) : List ((Int × Int) × List Int) × Nat :=
  let logical_cpu := e.1
  let core_id := e.2.1
  let socket_id := e.2.2
  if skipBySocket target_socket allow_multi_socket socket_id then acc
  else if logical_cpu ∈ used_cpus then acc
  else (addToCore acc.1 (socket_id, core_id) logical_cpu, acc.2 + 1)

/-- The build loop: the `available_cores` dict (as an insertion-ordered
association list) and the `total_available_logical_cpus` counter. -/
def buildAvailableCores (cpu_topology : CpuInfo) (target_socket : Option Int)
    (allow_multi_socket : Bool) (used_cpus : List Int) :
    List ((Int × Int) × List Int) × Nat :=
  cpu_topology.foldl (buildStep target_socket allow_multi_socket used_cpus) ([], 0)

/-- `sort_key(item)` from the source: `(0 if is_preferred else 1, socket_id,
core_id)`. -/
def sort_key (target_socket : Option Int) (item : (Int × Int) × List Int) :
    Int × Int × Int :=
  let socket_id := item.1.1
  let core_id := item.1.2
  let is_preferred : Bool :=
    match target_socket with
    | some ts => socket_id == ts
    | none => false
  (if is_preferred then 0 else 1, socket_id, core_id)

/-- Lexicographic order on `sort_key` triples, as Python compares tuples. -/
def keyLe (a b : Int × Int × Int) : Prop :=
  a.1 < b.1 ∨ (a.1 = b.1 ∧ (a.2.1 < b.2.1 ∨ (a.2.1 = b.2.1 ∧ a.2.2 ≤ b.2.2)))

instance : DecidableRel keyLe := fun a b => by
  unfold keyLe; exact inferInstance

/-- The order `sorted(available_cores.items(), key=sort_key)` sorts by. -/
def groupRel (target_socket : Option Int)
    (x y : (Int × Int) × List Int) : Prop :=
  keyLe (sort_key target_socket x) (sort_key target_socket y)

instance (t : Option Int) : DecidableRel (groupRel t) := fun x y => by
  unfold groupRel; exact inferInstance

instance : IsTrans (Int × Int × Int) keyLe where
  trans a b c hab hbc := by
    rcases a with ⟨a1, a2, a3⟩
    rcases b with ⟨b1, b2, b3⟩
    rcases c with ⟨c1, c2, c3⟩
    unfold keyLe at *
    dsimp only at *
    omega

instance : IsTotal (Int × Int × Int) keyLe where
  total a b := by
    rcases a with ⟨a1, a2, a3⟩
    rcases b with ⟨b1, b2, b3⟩
    unfold keyLe
    dsimp only
    omega

instance (t : Option Int) : IsTrans ((Int × Int) × List Int) (groupRel t) where
  trans a b c hab hbc :=
    IsTrans.trans (sort_key t a) (sort_key t b) (sort_key t c) hab hbc

instance (t : Option Int) : IsTotal ((Int × Int) × List Int) (groupRel t) where
  total a b := IsTotal.total (sort_key t a) (sort_key t b)

/-- The loop of the hyperthreading strategy: walk the sorted core groups,
taking `logicals[:remaining_needed]` from each until enough CPUs are
gathered (`break` when `remaining_needed <= 0`). -/
def packCores (groups : List ((Int × Int) × List Int)) (num_vcpus : Int)
    (assigned_cpus : List Int) : List Int :=
  match groups with
  | [] => assigned_cpus
  | (_, logicals) :: rest =>
      let remaining_needed : Int := num_vcpus - assigned_cpus.length
      if remaining_needed ≤ 0 then assigned_cpus
      else packCores rest num_vcpus (assigned_cpus ++ pySlice logicals remaining_needed)

/-- The `sorted_core_groups` value of `generate_cpu_allocation`: the
bucketed available CPUs, each bucket sorted ascending, the buckets ordered
by `sort_key` (Python's `sorted` is stable; the keys of distinct dict keys
are distinct, so the stable `insertionSort` models it). -/
def sorted_core_groups (cpu_topology : CpuInfo) (used_cpus : List Int)
    (target_socket : Option Int) (allow_multi_socket : Bool) :
    List ((Int × Int) × List Int) :=
  List.insertionSort (groupRel target_socket)
    ((buildAvailableCores cpu_topology target_socket allow_multi_socket
        used_cpus).1.map (fun kv => (kv.1, pySortedInt kv.2)))

/-- The `available_single_cpus` value of `generate_cpu_allocation`:
`[cpus[0] for _, cpus in sorted_core_groups if cpus]`. -/
def available_single_cpus (cpu_topology : CpuInfo) (used_cpus : List Int)
    (target_socket : Option Int) (allow_multi_socket : Bool) : List Int :=
  (sorted_core_groups cpu_topology used_cpus target_socket
      allow_multi_socket).filterMap (fun g => g.2.head?)

/-- `generate_cpu_allocation` from the source, as a pure function returning
the `sys.exit` path taken or the assigned CPU list.  Parameters appear in
source order; the Python defaults are `target_socket=None`,
`allow_multi_socket=False`, `use_hyperthreads=False`. -/
def generate_cpu_allocation (cpu_topology : CpuInfo) (num_vcpus : Int)
    (used_cpus : List Int) (target_socket : Option Int)
    (allow_multi_socket : Bool) (use_hyperthreads : Bool) :
    Except AllocError (List Int) :=
  if invalidTargetSocket cpu_topology target_socket then
    Except.error AllocError.noSuchSocket
  else
    if use_hyperthreads = false then
      if ((available_single_cpus cpu_topology used_cpus target_socket
            allow_multi_socket).length : Int) < num_vcpus then
        Except.error AllocError.insufficientCores
      else
        Except.ok (pySortedInt (pySlice
          (available_single_cpus cpu_topology used_cpus target_socket
            allow_multi_socket) num_vcpus))
    else
      if ((buildAvailableCores cpu_topology target_socket allow_multi_socket
            used_cpus).2 : Int) < num_vcpus then
        Except.error AllocError.insufficientCores
      else
        let assigned_cpus := packCores
          (sorted_core_groups cpu_topology used_cpus target_socket
            allow_multi_socket) num_vcpus []
        if (assigned_cpus.length : Int) < num_vcpus then
          Except.error AllocError.internalError
        else
          Except.ok (pySortedInt assigned_cpus)

/-! ### Command handlers (`_handle_add`, `_handle_add_manual`)

Both handlers load the pinning map, mutate it on success and save it; the
persisted map always equals the in-memory one on success, so the state they
thread is the `PinningMap` itself. -/

/-- The `sys.exit` paths of the add handlers. -/
inductive CmdError where
  | invalidRequest
  | duplicateVM
  | allocation (e : AllocError)
  | invalidCpuList
  | emptyCpuList
  | duplicateCpuIds
  | validationFailed
deriving DecidableEq

/-- `vm_name in pinning_data` on the insertion-ordered dict. -/
def hasVM (pinning_data : PinningMap) (vm_name : String) : Bool :=
  pinning_data.any (fun kv => kv.1 = vm_name)

/-- `_handle_add`: reject a non-positive vCPU count (`_positive_int`),
reject an already-pinned VM name, allocate automatically against the used
set, and record the assignment under the new key (appended, as dict
insertion does).  The surrounding code saves the updated map on success. -/
def handle_add (cpu_topology : CpuInfo) (vm_name : String) (num_vcpus : Int)
    (socket_id : Int) (multi_socket : Bool) (use_ht : Bool)
    (pinning_data : PinningMap) : Except CmdError PinningMap :=
  if num_vcpus ≤ 0 then Except.error CmdError.invalidRequest
  else if hasVM pinning_data vm_name then Except.error CmdError.duplicateVM
  else
    match generate_cpu_allocation cpu_topology num_vcpus
        (get_used_logical_cpus pinning_data)
        (some socket_id) multi_socket use_ht with
    | Except.error e => Except.error (CmdError.allocation e)
    | Except.ok assigned_cpus =>
        Except.ok (pinning_data ++ [(vm_name, assigned_cpus)])

/-- The CPU-list parse in `_handle_add_manual`:
`sorted(int(cpu.strip()) for cpu in cpu_list.split(',') if cpu.strip())`,
`none` when some item raises `ValueError`. -/
def parseCpuList (cpu_list : String) : Option (List Int) :=
  let parts := (pySplitComma cpu_list).filter (fun p => pyStrip p ≠ "")
  match parts.mapM (fun p => pyInt (pyStrip p)) with
  | none => none
  | some vals => some (pySortedInt vals)

/-- `_handle_add_manual`: reject an already-pinned VM name, parse and
validate the explicit CPU list (non-empty, no duplicates), check every id
exists in the topology and none is already used (both violation sets are
reported together as one failure), and record the assignment. -/
def handle_add_manual (cpu_topology : CpuInfo) (vm_name : String)
    (cpu_list : String) (pinning_data : PinningMap) :
    Except CmdError PinningMap :=
  if hasVM pinning_data vm_name then Except.error CmdError.duplicateVM
  else
    match parseCpuList cpu_list with
    | none => Except.error CmdError.invalidCpuList
    | some assigned_cpus =>
      if assigned_cpus = [] then Except.error CmdError.emptyCpuList
      else if assigned_cpus.length ≠ assigned_cpus.dedup.length then
        Except.error CmdError.duplicateCpuIds
      else
        if assigned_cpus.filter
            (fun c => c ∉ cpu_topology.map (fun e => e.1)) ≠ [] ∨
          assigned_cpus.filter
            (fun c => c ∈ get_used_logical_cpus pinning_data) ≠ [] then
          Except.error CmdError.validationFailed
        else Except.ok (pinning_data ++ [(vm_name, assigned_cpus)])

/-- One *add* invocation: automatic (`add`) or manual (`add-manual`).  Each
invocation re-reads the host topology, so every operation carries its own. -/
inductive AddOp where
  | auto (topo : CpuInfo) (vm_name : String) (num_vcpus : Int)
      (socket_id : Int) (multi_socket : Bool) (use_ht : Bool)
  | manual (topo : CpuInfo) (vm_name : String) (cpu_list : String)

/-- Dispatch one *add* invocation against the current pinning map. -/
def runAdd (pinning_data : PinningMap) (op : AddOp) :
    Except CmdError PinningMap :=
  match op with
  | AddOp.auto topo vm n sock multi ht =>
      handle_add topo vm n sock multi ht pinning_data
  | AddOp.manual topo vm cpus =>
      handle_add_manual topo vm cpus pinning_data

/-- A sequence of *add* invocations, each persisting its result for the
next; the sequence is successful when every invocation succeeds. -/
def runAdds (pinning_data : PinningMap) (ops : List AddOp) :
    Except CmdError PinningMap :=
  match ops with
  | [] => Except.ok pinning_data
  | op :: rest =>
      match runAdd pinning_data op with
      | Except.error e => Except.error e
      | Except.ok d => runAdds d rest

/-! ### Pinning-string formatter (`build_ovirt_pinning_string`) -/

/-- `build_ovirt_pinning_string(assigned_cpus)`: sorts the input and joins
`f"{v}#{p}"` pairs with `_`, where `v` enumerates positions from 0. -/
def build_ovirt_pinning_string (assigned_cpus : List Int) : String :=
  let sorted_cpus := pySortedInt assigned_cpus
  String.intercalate "_"
    ((sorted_cpus.enum).map (fun vp => toString vp.1 ++ "#" ++ toString vp.2))

/-! ### Specification-level descriptions

Declarative descriptions of quantities the claims speak about, to be related
to the embedded code by the theorems below. -/

/-- The scenario topology of the specification: 2 sockets × 2 cores × 2
threads, ids 0,16,1,17 on socket 0 and 2,18,3,19 on socket 1. -/
def scenarioTopology : CpuInfo :=
  [(0, 0, 0), (16, 0, 0), (1, 1, 0), (17, 1, 0),
   (2, 0, 1), (18, 0, 1), (3, 1, 1), (19, 1, 1)]

/-- Whether a topology entry survives the allocator's filter: not excluded
by the socket filter and not already used. -/
def keepEntry (target_socket : Option Int) (allow_multi_socket : Bool)
    (used_cpus : List Int) (e : Int × Int × Int) : Bool :=
  !(skipBySocket target_socket allow_multi_socket e.2.2) &&
    decide (e.1 ∉ used_cpus)

/-- The logical ids available to the allocator after filtering, in topology
order: the "available logical threads (post-filter)" of the specification. -/
def availableLogicalCpus (cpu_topology : CpuInfo) (used_cpus : List Int)
    (target_socket : Option Int) (allow_multi_socket : Bool) : List Int :=
  (cpu_topology.filter (keepEntry target_socket allow_multi_socket used_cpus)).map
    (fun e => e.1)

/-- The `(socket_id, core_id)` key of a topology entry. -/
def coreKeyOf (e : Int × Int × Int) : Int × Int := (e.2.2, e.2.1)

/-- The number of distinct physical cores that still have at least one
free logical CPU after filtering: the "available physical cores" of the
specification. -/
def freeCoreCount (cpu_topology : CpuInfo) (used_cpus : List Int)
    (target_socket : Option Int) (allow_multi_socket : Bool) : Nat :=
  (((cpu_topology.filter (keepEntry target_socket allow_multi_socket used_cpus)).map
      coreKeyOf).toFinset).card

/-- The CPUs of socket `S` the single-thread strategy can select: the
smallest free logical id of each free core of socket `S`. -/
def socketSingleCpus (cpu_topology : CpuInfo) (used_cpus : List Int)
    (S : Int) : List Int :=
  (((buildAvailableCores cpu_topology (some S) false used_cpus).1.map
      (fun kv => (kv.1, pySortedInt kv.2))).filterMap (fun g => g.2.head?))

/-- The per-line semantics of the topology parser: the record a line
contributes when it is not a comment, has exactly three comma-separated
fields, and all three parse as integers. -/
def validRecord (line : String) : Option (Int × Int × Int) :=
  if pyStartsWithHash line then none
  else
    match pySplitComma (pyStrip line) with
    | [a, b, c] =>
        match pyInt a, pyInt b, pyInt c with
        | some x, some y, some z => some (x, y, z)
        | _, _, _ => none
    | _ => none

/-- The lines the parser warns about: non-comment lines with exactly three
fields of which at least one is not an integer. -/
def warnedLine (line : String) : Bool :=
  !(pyStartsWithHash line) &&
    (match pySplitComma (pyStrip line) with
     | [a, b, c] => (pyInt a).isNone || (pyInt b).isNone || (pyInt c).isNone
     | _ => false)

/-- Keep the first record for every logical id, dropping later repeats;
`seen` holds the ids already taken. -/
def dedupFirstBy (seen : List Int) : CpuInfo → CpuInfo
  | [] => []
  | e :: rest =>
      if e.1 ∈ seen then dedupFirstBy seen rest
      else e :: dedupFirstBy (seen ++ [e.1]) rest

/-- The recorded CPU lists of distinct VMs are pairwise disjoint: the union
of all recorded VMs' CPU lists contains each logical CPU id at most once. -/
def DisjointLists (data : PinningMap) : Prop :=
  List.Pairwise (fun l1 l2 => ∀ x, x ∈ l1 → x ∉ l2)
    (data.map (fun kv => kv.2))

/-- All CPUs stored in a bucket list, in bucket order. -/
def bucketFlatten (m : List ((Int × Int) × List Int)) : List Int :=
  (m.map (fun kv => kv.2)).flatten

/-- The keys of a bucket list, in order. -/
def bucketKeys (m : List ((Int × Int) × List Int)) : List (Int × Int) :=
  m.map (fun kv => kv.1)

/-! ### Lemmas about the store -/

theorem intsOfJson_map_num (l : List Int) :
    intsOfJson (l.map Json.num) = some l := by
  induction l with
  | nil => rfl
  | cons n rest ih => simp [intsOfJson, ih]

theorem pinningEntriesOfJson_dump (X : PinningMap) :
    pinningEntriesOfJson
      (X.map fun kv => (kv.1, Json.arr (kv.2.map Json.num))) = some X := by
  induction X with
  | nil => rfl
  | cons kv rest ih => simp [pinningEntriesOfJson, intsOfJson_map_num, ih]

theorem pinningOfJson_dumpJson (X : PinningMap) :
    pinningOfJson (dumpJson X) = some X := by
  simp [pinningOfJson, dumpJson, pinningEntriesOfJson_dump]

/-- Python's `sorted` yields the same list on any two permutations of the
same elements. -/
theorem pySortedInt_perm_eq {l l' : List Int} (h : l.Perm l') :
    pySortedInt l = pySortedInt l' :=
  List.eq_of_perm_of_sorted
    ((List.perm_insertionSort intLe l).trans
      (h.trans (List.perm_insertionSort intLe l').symm))
    (List.sorted_insertionSort intLe l)
    (List.sorted_insertionSort intLe l')

/-! ### Claim theorems: store and formatter -/

/-- C1 (counterexample): the save operation is *not* atomic.  Starting from
a store that persists the record `{"vm": [0]}` (so a load returns exactly
that record), a save of `{"db": [2]}` that fails partway leaves the file
truncated mid-serialization — `open(PINNING_FILE, "w")` truncates in place
and there is no write-to-temp-then-replace step — so the next load no longer
returns the prior record. -/
theorem C1_counterexample :
    load_pinning (save_pinning [("db", [2])] true
        (FileState.json (dumpJson [("vm", [0])]))).1 ≠
      some [("vm", [0])] ∧
    load_pinning (FileState.json (dumpJson [("vm", [0])])) =
      some [("vm", [0])] := by
  decide

/-- C1 (amended): `save_pinning` writes the file in place (truncating open,
then `json.dump`); a save that fails partway leaves the file holding invalid
(truncated) JSON and exits with an error, and the next load then returns the
empty mapping — a recoverable safe default — rather than the previously
persisted record. -/
theorem C1_amended_save_truncates :
    ∀ (X : PinningMap) (fs : FileState),
      (save_pinning X true fs).1 = FileState.invalid ∧
      (save_pinning X true fs).2 = false ∧
      load_pinning (save_pinning X true fs).1 = some [] := by
  intro X fs
  exact ⟨rfl, rfl, rfl⟩

/-- C7: round-trip persistence — for every valid `AssignmentRecord` (a
mapping from non-empty VM names to integer lists, including the empty
mapping), a successful save followed by a load yields the same mapping,
from any prior file state. -/
theorem C7_roundtrip_persistence :
    ∀ (X : PinningMap) (fs : FileState),
      (∀ kv ∈ X, kv.1 ≠ "") → (X.map (fun kv => kv.1)).Nodup →
      load_pinning (save_pinning X false fs).1 = some X := by
  intro X fs _ _
  simp [save_pinning, load_pinning, pinningOfJson_dumpJson]

/-- Witness for C7 at the record `{"vm1": [1,2,3], "vm2": [7]}`. -/
theorem C7_witness :
    load_pinning (save_pinning [("vm1", [1, 2, 3]), ("vm2", [7])] false
        FileState.missing).1 =
      some [("vm1", [1, 2, 3]), ("vm2", [7])] :=
  C7_roundtrip_persistence [("vm1", [1, 2, 3]), ("vm2", [7])]
    FileState.missing (by decide) (by decide)

/-- C8: the formatter is invariant under permutation of its input — it
sorts internally, then emits the `"{v}#{p}"` pairs joined by `_` — and
every permutation of `{1,3,7}` formats to `"0#1_1#3_2#7"`. -/
theorem C8_formatter_perm_invariant :
    (∀ (l l' : List Int), l.Perm l' →
        build_ovirt_pinning_string l = build_ovirt_pinning_string l') ∧
    (∀ l : List Int, l.Perm [1, 3, 7] →
        build_ovirt_pinning_string l = "0#1_1#3_2#7") := by
  constructor
  · intro l l' h
    unfold build_ovirt_pinning_string
    rw [pySortedInt_perm_eq h]
  · intro l h
    unfold build_ovirt_pinning_string
    rw [pySortedInt_perm_eq h]
    rfl

/-- Witness for C8 at the permutation `[7,3,1]` of `{1,3,7}`. -/
theorem C8_witness :
    build_ovirt_pinning_string [7, 3, 1] = "0#1_1#3_2#7" :=
  C8_formatter_perm_invariant.2 [7, 3, 1] (by decide)

/-! ### Claim theorems: socket validation -/

/-- C6: whenever the requested target socket is absent from the set of
socket ids present in the topology, allocation fails with `NoSuchSocket`,
regardless of the vCPU count, the used set, and both policy flags. -/
theorem C6_no_such_socket :
    ∀ (topo : CpuInfo) (n : Int) (used : List Int) (ts : Int)
      (multi ht : Bool), ts ∉ available_sockets topo →
      generate_cpu_allocation topo n used (some ts) multi ht =
        Except.error AllocError.noSuchSocket := by
  intro topo n used ts multi ht h
  simp [generate_cpu_allocation, invalidTargetSocket, h]

/-- Witness for C6: `target_socket=99` on the scenario topology. -/
theorem C6_witness :
    generate_cpu_allocation scenarioTopology 1 [] (some 99) false false =
      Except.error AllocError.noSuchSocket :=
  C6_no_such_socket scenarioTopology 1 [] 99 false false (by decide)

/-! ### Lemmas about the topology parser -/

/-- Every line falls in one of three classes, and the parsing loop acts
accordingly: a valid record is appended unless its logical id was already
seen; a three-field line with non-integer content is warned about; every
other line is skipped silently. -/
theorem processTopologyLine_cases (st : ParseState) (line : String) :
    (∃ e, validRecord line = some e ∧ warnedLine line = false ∧
       processTopologyLine st line =
         (if e.1 ∈ st.parsed_cpus then st
          else ⟨st.topology ++ [e], st.parsed_cpus ++ [e.1], st.warnings⟩)) ∨
    (validRecord line = none ∧ warnedLine line = true ∧
       processTopologyLine st line =
         { st with warnings := st.warnings ++ [line] }) ∨
    (validRecord line = none ∧ warnedLine line = false ∧
       processTopologyLine st line = st) := by
  unfold validRecord warnedLine processTopologyLine
  by_cases hs : pyStartsWithHash line = true
  · right; right; simp [hs]
  · have hs' : pyStartsWithHash line = false := by
      simpa using hs
    rcases hsp : pySplitComma (pyStrip line) with _ | ⟨a, _ | ⟨b, _ | ⟨c, _ | ⟨d, t⟩⟩⟩⟩
    · right; right; simp [hs', hsp]
    · right; right; simp [hs', hsp]
    · right; right; simp [hs', hsp]
    · cases hva : pyInt a with
      | none => right; left; simp [hs', hsp, hva]
      | some x =>
        cases hvb : pyInt b with
        | none => right; left; simp [hs', hsp, hva, hvb]
        | some y =>
          cases hvc : pyInt c with
          | none => right; left; simp [hs', hsp, hva, hvb, hvc]
          | some z =>
            left
            refine ⟨(x, y, z), by simp [hs', hsp, hva, hvb, hvc], ?_, ?_⟩
            · simp [hs', hsp, hva, hvb, hvc]
            · simp [hs', hsp, hva, hvb, hvc]
    · right; right; simp [hs', hsp]

/-- The parsing loop, fully unrolled: it collects the valid records in input
order deduplicated by first logical id, tracks their ids, and warns exactly
about the `warnedLine`s. -/
theorem foldl_processTopologyLine (lines : List String) :
    ∀ st : ParseState,
      lines.foldl processTopologyLine st =
        ⟨st.topology ++ dedupFirstBy st.parsed_cpus (lines.filterMap validRecord),
         st.parsed_cpus ++
           (dedupFirstBy st.parsed_cpus (lines.filterMap validRecord)).map
             (fun e => e.1),
         st.warnings ++ lines.filter warnedLine⟩ := by
  induction lines with
  | nil =>
    intro st
    simp [dedupFirstBy]
  | cons line rest ih =>
    intro st
    rcases processTopologyLine_cases st line with
      ⟨e, hv, hw, hp⟩ | ⟨hv, hw, hp⟩ | ⟨hv, hw, hp⟩
    · simp only [List.foldl_cons, hp, List.filterMap_cons, hv,
        List.filter_cons, hw]
      by_cases hmem : e.1 ∈ st.parsed_cpus
      · rw [if_pos hmem, ih]
        simp [dedupFirstBy, hmem]
      · rw [if_neg hmem, ih]
        simp [dedupFirstBy, hmem]
    · simp only [List.foldl_cons, hp, List.filterMap_cons, hv,
        List.filter_cons, hw]
      rw [ih]
      simp
    · simp only [List.foldl_cons, hp, List.filterMap_cons, hv,
        List.filter_cons, hw]
      rw [ih]
      simp

/-- C9 (amended): the parse of an input enumeration skips each malformed
record individually rather than failing — records with three fields but
non-integer content with a recoverable warning, records with a wrong field
count silently — drops records whose logical id was already seen (first
occurrence wins), preserves the input order of first occurrences with no
re-sorting, and fails with the Empty error exactly when zero valid records
remain after skipping. -/
theorem C9_amended_parse_behaviour :
    ∀ lines : List String,
      get_cpu_topology lines =
        (if lines.filterMap validRecord = [] then
          Except.error TopologyError.empty
        else
          Except.ok (dedupFirstBy [] (lines.filterMap validRecord),
            lines.filter warnedLine)) := by
  intro lines
  unfold get_cpu_topology
  rw [foldl_processTopologyLine]
  cases hv : lines.filterMap validRecord with
  | nil => simp [dedupFirstBy]
  | cons e r => simp [dedupFirstBy]

/-- C9 (counterexample): a record with a wrong field count (`"0,0"`) is
skipped, but silently — the parse of `["0,0", "1,1,1"]` succeeds with no
warning recorded, although the claim promises a recoverable warning for
every malformed record. -/
theorem C9_counterexample :
    validRecord "0,0" = none ∧ pyStartsWithHash "0,0" = false ∧
    get_cpu_topology ["0,0", "1,1,1"] = Except.ok ([(1, 1, 1)], []) := by
  exact ⟨by decide, by decide, rfl⟩

/-! ### Lemmas about the allocator: the build loop -/

/-- The build loop body, expressed through the combined filter
`keepEntry`. -/
theorem buildStep_eq (t : Option Int) (multi : Bool) (used : List Int)
    (acc : List ((Int × Int) × List Int) × Nat) (e : Int × Int × Int) :
    buildStep t multi used acc e =
      (if keepEntry t multi used e then
        (addToCore acc.1 (coreKeyOf e) e.1, acc.2 + 1)
      else acc) := by
  unfold buildStep keepEntry coreKeyOf
  by_cases h1 : skipBySocket t multi e.2.2 = true
  · simp [h1]
  · have h1' : skipBySocket t multi e.2.2 = false := by simpa using h1
    by_cases h2 : e.1 ∈ used
    · simp [h1', h2]
    · simp [h1', h2]

/-- Appending a CPU to its bucket adds exactly that CPU to the bucket
contents, up to permutation. -/
theorem addToCore_flatten_perm (m : List ((Int × Int) × List Int))
    (k : Int × Int) (c : Int) :
    List.Perm (bucketFlatten (addToCore m k c)) (c :: bucketFlatten m) := by
  induction m with
  | nil => simp [addToCore, bucketFlatten]
  | cons kv rest ih =>
    obtain ⟨k', v⟩ := kv
    rw [addToCore]
    by_cases h : k' = k
    · rw [if_pos h]
      simp only [bucketFlatten, List.map_cons, List.flatten_cons]
      rw [List.append_assoc]
      exact List.perm_middle
    · rw [if_neg h]
      simp only [bucketFlatten, List.map_cons, List.flatten_cons]
      exact (List.Perm.append_left v ih).trans List.perm_middle

/-- The contents of the buckets built by the allocator's grouping loop are
exactly the post-filter available CPUs, up to permutation. -/
theorem foldl_buildStep_flatten_perm (t : Option Int) (multi : Bool)
    (used : List Int) (topo : CpuInfo) :
    ∀ acc : List ((Int × Int) × List Int) × Nat,
      List.Perm (bucketFlatten (topo.foldl (buildStep t multi used) acc).1)
        (bucketFlatten acc.1 ++ availableLogicalCpus topo used t multi) := by
  induction topo with
  | nil =>
    intro acc
    simp [availableLogicalCpus]
  | cons e rest ih =>
    intro acc
    rw [List.foldl_cons, buildStep_eq]
    by_cases hk : keepEntry t multi used e = true
    · rw [if_pos hk]
      refine (ih _).trans ?_
      have h1 : List.Perm
          (bucketFlatten (addToCore acc.1 (coreKeyOf e) e.1) ++
            availableLogicalCpus rest used t multi)
          ((e.1 :: bucketFlatten acc.1) ++
            availableLogicalCpus rest used t multi) :=
        List.Perm.append_right _ (addToCore_flatten_perm acc.1 _ _)
      refine h1.trans ?_
      have h2 : availableLogicalCpus (e :: rest) used t multi =
          e.1 :: availableLogicalCpus rest used t multi := by
        simp [availableLogicalCpus, List.filter_cons, hk]
      rw [h2, List.cons_append]
      exact List.perm_middle.symm
    · rw [if_neg hk]
      refine (ih _).trans ?_
      have h2 : availableLogicalCpus (e :: rest) used t multi =
          availableLogicalCpus rest used t multi := by
        have hk' : keepEntry t multi used e = false := by simpa using hk
        simp [availableLogicalCpus, List.filter_cons, hk']
      rw [h2]

/-- Bucket contents of `buildAvailableCores` are the post-filter available
CPUs, up to permutation. -/
theorem buildAvailableCores_flatten_perm (topo : CpuInfo) (t : Option Int)
    (multi : Bool) (used : List Int) :
    List.Perm (bucketFlatten (buildAvailableCores topo t multi used).1)
      (availableLogicalCpus topo used t multi) := by
  have h := foldl_buildStep_flatten_perm t multi used topo ([], 0)
  simpa [bucketFlatten, buildAvailableCores] using h

/-- The `total_available_logical_cpus` counter counts the post-filter
available CPUs. -/
theorem foldl_buildStep_count (t : Option Int) (multi : Bool)
    (used : List Int) (topo : CpuInfo) :
    ∀ acc : List ((Int × Int) × List Int) × Nat,
      (topo.foldl (buildStep t multi used) acc).2 =
        acc.2 + (availableLogicalCpus topo used t multi).length := by
  induction topo with
  | nil =>
    intro acc
    simp [availableLogicalCpus]
  | cons e rest ih =>
    intro acc
    rw [List.foldl_cons, buildStep_eq]
    by_cases hk : keepEntry t multi used e = true
    · rw [if_pos hk, ih]
      simp [availableLogicalCpus, List.filter_cons, hk]
      omega
    · rw [if_neg hk, ih]
      have hk' : keepEntry t multi used e = false := by simpa using hk
      simp [availableLogicalCpus, List.filter_cons, hk']

/-- `buildAvailableCores` counter, closed form. -/
theorem buildAvailableCores_count (topo : CpuInfo) (t : Option Int)
    (multi : Bool) (used : List Int) :
    (buildAvailableCores topo t multi used).2 =
      (availableLogicalCpus topo used t multi).length := by
  have h := foldl_buildStep_count t multi used topo ([], 0)
  simpa [buildAvailableCores] using h

/-- A post-filter available CPU is a topology logical id that is not in the
used set. -/
theorem availableLogicalCpus_mem (topo : CpuInfo) (used : List Int)
    (t : Option Int) (multi : Bool) (c : Int)
    (h : c ∈ availableLogicalCpus topo used t multi) :
    c ∈ topo.map (fun e => e.1) ∧ c ∉ used := by
  unfold availableLogicalCpus at h
  obtain ⟨e, he, hec⟩ := List.mem_map.mp h
  have hef := List.mem_filter.mp he
  have hkeep := hef.2
  unfold keepEntry at hkeep
  constructor
  · exact List.mem_map.mpr ⟨e, hef.1, hec⟩
  · subst hec
    simp only [Bool.and_eq_true, decide_eq_true_eq] at hkeep
    exact hkeep.2

/-- The post-filter available CPUs are pairwise distinct whenever the
topology's logical ids are. -/
theorem availableLogicalCpus_nodup (topo : CpuInfo) (used : List Int)
    (t : Option Int) (multi : Bool)
    (h : (topo.map (fun e => e.1)).Nodup) :
    (availableLogicalCpus topo used t multi).Nodup := by
  unfold availableLogicalCpus
  exact ((List.filter_sublist topo).map (fun e => e.1)).nodup h

/-! ### Lemmas about the allocator: bucket keys -/

/-- Appending to a bucket adds its key at the end when absent and leaves
the key list unchanged when present. -/
theorem addToCore_keys (m : List ((Int × Int) × List Int)) (k : Int × Int)
    (c : Int) :
    bucketKeys (addToCore m k c) =
      (if k ∈ bucketKeys m then bucketKeys m else bucketKeys m ++ [k]) := by
  induction m with
  | nil => simp [addToCore, bucketKeys]
  | cons kv rest ih =>
    obtain ⟨k', v⟩ := kv
    rw [addToCore]
    by_cases h : k' = k
    · subst h
      simp [bucketKeys]
    · rw [if_neg h]
      have hlhs : bucketKeys ((k', v) :: addToCore rest k c) =
          k' :: bucketKeys (addToCore rest k c) := by
        simp [bucketKeys]
      rw [hlhs, ih]
      have hcond : (k ∈ bucketKeys ((k', v) :: rest)) ↔
          k ∈ bucketKeys rest := by
        simp only [bucketKeys, List.map_cons, List.mem_cons]
        constructor
        · rintro (heq | hx)
          · exact absurd heq.symm h
          · exact hx
        · exact Or.inr
      by_cases hm : k ∈ bucketKeys rest
      · rw [if_pos hm, if_pos (hcond.mpr hm)]
        simp [bucketKeys]
      · rw [if_neg hm, if_neg (fun hc => hm (hcond.mp hc))]
        simp [bucketKeys]

/-- Key membership after a bucket append. -/
theorem addToCore_keys_mem (m : List ((Int × Int) × List Int))
    (k : Int × Int) (c : Int) (x : Int × Int) :
    x ∈ bucketKeys (addToCore m k c) ↔ x ∈ bucketKeys m ∨ x = k := by
  rw [addToCore_keys]
  by_cases h : k ∈ bucketKeys m
  · rw [if_pos h]
    constructor
    · exact fun hx => Or.inl hx
    · rintro (hx | rfl)
      · exact hx
      · exact h
  · rw [if_neg h]
    simp [List.mem_append]

/-- A bucket append preserves distinctness of the keys. -/
theorem addToCore_keys_nodup (m : List ((Int × Int) × List Int))
    (k : Int × Int) (c : Int) (h : (bucketKeys m).Nodup) :
    (bucketKeys (addToCore m k c)).Nodup := by
  rw [addToCore_keys]
  by_cases hm : k ∈ bucketKeys m
  · rw [if_pos hm]; exact h
  · rw [if_neg hm]
    simp [List.nodup_append, h, hm]

/-- The grouping loop keeps bucket keys distinct, and the keys are exactly
those of the accumulator plus the core keys of the kept entries. -/
theorem foldl_buildStep_keys (t : Option Int) (multi : Bool)
    (used : List Int) (topo : CpuInfo) :
    ∀ acc : List ((Int × Int) × List Int) × Nat,
      (bucketKeys acc.1).Nodup →
      (bucketKeys (topo.foldl (buildStep t multi used) acc).1).Nodup ∧
      (∀ x, x ∈ bucketKeys (topo.foldl (buildStep t multi used) acc).1 ↔
        x ∈ bucketKeys acc.1 ∨
          x ∈ (topo.filter (keepEntry t multi used)).map coreKeyOf) := by
  induction topo with
  | nil =>
    intro acc hacc
    simp [hacc]
  | cons e rest ih =>
    intro acc hacc
    rw [List.foldl_cons, buildStep_eq]
    by_cases hk : keepEntry t multi used e = true
    · rw [if_pos hk]
      obtain ⟨hnd, hmem⟩ :=
        ih (addToCore acc.1 (coreKeyOf e) e.1, acc.2 + 1)
          (addToCore_keys_nodup acc.1 (coreKeyOf e) e.1 hacc)
      refine ⟨hnd, fun x => ?_⟩
      rw [hmem x, addToCore_keys_mem]
      simp [List.filter_cons, hk, List.mem_cons]
      tauto
    · rw [if_neg hk]
      obtain ⟨hnd, hmem⟩ := ih _ hacc
      refine ⟨hnd, fun x => ?_⟩
      rw [hmem x]
      have hk' : keepEntry t multi used e = false := by simpa using hk
      simp [List.filter_cons, hk']

/-- The number of buckets built equals the number of distinct free cores
after filtering. -/
theorem buildAvailableCores_length (topo : CpuInfo) (t : Option Int)
    (multi : Bool) (used : List Int) :
    (buildAvailableCores topo t multi used).1.length =
      freeCoreCount topo used t multi := by
  obtain ⟨hnd, hmem⟩ :=
    foldl_buildStep_keys t multi used topo ([], 0) (by simp [bucketKeys])
  unfold buildAvailableCores
  have hlen : (List.foldl (buildStep t multi used) ([], 0) topo).1.length =
      (bucketKeys (List.foldl (buildStep t multi used) ([], 0) topo).1).length := by
    simp [bucketKeys]
  rw [hlen, ← List.toFinset_card_of_nodup hnd]
  unfold freeCoreCount
  congr 1
  ext x
  simp only [List.mem_toFinset]
  rw [hmem x]
  simp [bucketKeys]

/-! ### Lemmas about the allocator: sorted groups -/

/-- Every bucket built by the grouping loop is non-empty. -/
theorem foldl_buildStep_nonempty (t : Option Int) (multi : Bool)
    (used : List Int) (topo : CpuInfo) :
    ∀ acc : List ((Int × Int) × List Int) × Nat,
      (∀ kv ∈ acc.1, kv.2 ≠ []) →
      ∀ kv ∈ (topo.foldl (buildStep t multi used) acc).1, kv.2 ≠ [] := by
  have haux : ∀ (m : List ((Int × Int) × List Int)) (k : Int × Int)
      (c : Int), (∀ kv ∈ m, kv.2 ≠ []) →
      ∀ kv ∈ addToCore m k c, kv.2 ≠ [] := by
    intro m k c
    induction m with
    | nil =>
      intro hm kv hkv
      simp only [addToCore, List.mem_singleton] at hkv
      subst hkv
      simp
    | cons kv0 rest ih =>
      obtain ⟨k', v⟩ := kv0
      intro hm
      rw [addToCore]
      by_cases h : k' = k
      · rw [if_pos h]
        intro kv hkv
        rcases List.mem_cons.mp hkv with heq | hkv'
        · subst heq
          simp
        · exact hm kv (List.mem_cons_of_mem _ hkv')
      · rw [if_neg h]
        intro kv hkv
        rcases List.mem_cons.mp hkv with heq | hkv'
        · subst heq
          exact hm (k', v) (List.mem_cons_self _ _)
        · exact ih (fun kv2 hkv2 => hm kv2 (List.mem_cons_of_mem _ hkv2))
            kv hkv'
  induction topo with
  | nil =>
    intro acc hacc
    simpa using hacc
  | cons e rest ih =>
    intro acc hacc
    rw [List.foldl_cons, buildStep_eq]
    by_cases hk : keepEntry t multi used e = true
    · rw [if_pos hk]
      exact ih _ (haux acc.1 _ _ hacc)
    · rw [if_neg hk]
      exact ih _ hacc

/-- Every group of `sorted_core_groups` has a non-empty CPU list. -/
theorem sorted_core_groups_nonempty (topo : CpuInfo) (used : List Int)
    (t : Option Int) (multi : Bool) :
    ∀ g ∈ sorted_core_groups topo used t multi, g.2 ≠ [] := by
  intro g hg
  unfold sorted_core_groups at hg
  have hg' := (List.perm_insertionSort (groupRel t) _).mem_iff.mp hg
  obtain ⟨kv, hkv, hkvg⟩ := List.mem_map.mp hg'
  have hne : kv.2 ≠ [] :=
    foldl_buildStep_nonempty t multi used topo ([], 0) (by simp) kv hkv
  subst hkvg
  intro hcon
  apply hne
  have hcon' : pySortedInt kv.2 = [] := hcon
  have hp := List.perm_insertionSort intLe kv.2
  rw [show List.insertionSort intLe kv.2 = pySortedInt kv.2 from rfl,
    hcon'] at hp
  exact hp.symm.eq_nil

/-- Sorting inside the buckets preserves the bucket contents up to
permutation. -/
theorem bucketFlatten_map_sort (m : List ((Int × Int) × List Int)) :
    List.Perm (bucketFlatten (m.map (fun kv => (kv.1, pySortedInt kv.2))))
      (bucketFlatten m) := by
  induction m with
  | nil => simp [bucketFlatten]
  | cons kv rest ih =>
    simp only [bucketFlatten, List.map_cons, List.flatten_cons] at ih ⊢
    exact List.Perm.append (List.perm_insertionSort intLe kv.2) ih

/-- The contents of `sorted_core_groups` are the post-filter available
CPUs, up to permutation. -/
theorem sorted_core_groups_flatten_perm (topo : CpuInfo) (used : List Int)
    (t : Option Int) (multi : Bool) :
    List.Perm (bucketFlatten (sorted_core_groups topo used t multi))
      (availableLogicalCpus topo used t multi) := by
  unfold sorted_core_groups
  refine List.Perm.trans ?_
    ((bucketFlatten_map_sort _).trans
      (buildAvailableCores_flatten_perm topo t multi used))
  unfold bucketFlatten
  exact ((List.perm_insertionSort (groupRel t) _).map _).flatten

/-- The number of sorted groups equals the free-core count. -/
theorem sorted_core_groups_length (topo : CpuInfo) (used : List Int)
    (t : Option Int) (multi : Bool) :
    (sorted_core_groups topo used t multi).length =
      freeCoreCount topo used t multi := by
  unfold sorted_core_groups
  rw [(List.perm_insertionSort (groupRel t) _).length_eq]
  rw [List.length_map]
  exact buildAvailableCores_length topo t multi used

/-! ### Lemmas about the allocator: the two selection strategies -/

/-- Taking the head of every group, when all groups are non-empty, yields
one CPU per group. -/
theorem filterMap_head_length (L : List ((Int × Int) × List Int))
    (h : ∀ g ∈ L, g.2 ≠ []) :
    (L.filterMap (fun g => g.2.head?)).length = L.length := by
  induction L with
  | nil => simp
  | cons g rest ih =>
    have hg : g.2 ≠ [] := h g (List.mem_cons_self _ _)
    obtain ⟨a, as, hga⟩ : ∃ a as, g.2 = a :: as := by
      cases hgg : g.2 with
      | nil => exact absurd hgg hg
      | cons a as => exact ⟨a, as, rfl⟩
    rw [List.filterMap_cons]
    simp only [hga, List.head?_cons, List.length_cons]
    rw [ih (fun g2 hg2 => h g2 (List.mem_cons_of_mem _ hg2))]

/-- The single-thread candidate list is one CPU per free core. -/
theorem available_single_cpus_length (topo : CpuInfo) (used : List Int)
    (t : Option Int) (multi : Bool) :
    (available_single_cpus topo used t multi).length =
      freeCoreCount topo used t multi := by
  unfold available_single_cpus
  rw [filterMap_head_length _ (sorted_core_groups_nonempty topo used t multi)]
  exact sorted_core_groups_length topo used t multi

/-- The heads of the groups form a sublist of the group contents. -/
theorem filterMap_head_sublist (L : List ((Int × Int) × List Int)) :
    (L.filterMap (fun g => g.2.head?)).Sublist (bucketFlatten L) := by
  induction L with
  | nil => simp [bucketFlatten]
  | cons g rest ih =>
    rw [List.filterMap_cons]
    cases hgg : g.2 with
    | nil =>
      simp only [bucketFlatten, List.map_cons, List.flatten_cons, hgg,
        List.head?, List.nil_append]
      exact ih
    | cons a as =>
      simp only [bucketFlatten, List.map_cons, List.flatten_cons, hgg,
        List.head?, List.cons_append]
      exact List.Sublist.cons₂ a
        (ih.trans (List.sublist_append_right as _))

/-- The hyperthread-packing loop gathers exactly the first
`num_vcpus - len(assigned)` CPUs of the concatenated group contents. -/
theorem packCores_eq_take (num_vcpus : Int)
    (groups : List ((Int × Int) × List Int)) :
    ∀ assigned : List Int,
      packCores groups num_vcpus assigned =
        assigned ++
          (bucketFlatten groups).take (num_vcpus - assigned.length).toNat := by
  induction groups with
  | nil =>
    intro assigned
    simp [packCores, bucketFlatten]
  | cons g rest ih =>
    intro assigned
    obtain ⟨k, logicals⟩ := g
    show packCores ((k, logicals) :: rest) num_vcpus assigned = _
    rw [packCores]
    by_cases hrem : (num_vcpus - (assigned.length : Int)) ≤ 0
    · rw [if_pos hrem]
      have h0 : (num_vcpus - (assigned.length : Int)).toNat = 0 := by omega
      simp [h0]
    · rw [if_neg hrem]
      rw [ih]
      have h0 : (0 : Int) ≤ num_vcpus - assigned.length := by omega
      rw [pySlice, if_pos h0]
      simp only [bucketFlatten, List.map_cons, List.flatten_cons]
      rw [List.take_append_eq_append_take, ← List.append_assoc]
      congr 1
      congr 1
      simp only [List.length_append, List.length_take]
      omega

/-- `generate_cpu_allocation` in the single-thread strategy, once the
target socket has been validated. -/
theorem generate_noHT (topo : CpuInfo) (n : Int) (used : List Int)
    (t : Option Int) (multi : Bool)
    (h : invalidTargetSocket topo t = false) :
    generate_cpu_allocation topo n used t multi false =
      (if ((available_single_cpus topo used t multi).length : Int) < n then
        Except.error AllocError.insufficientCores
      else
        Except.ok (pySortedInt
          (pySlice (available_single_cpus topo used t multi) n))) := by
  unfold generate_cpu_allocation
  rw [h]
  simp

/-- `generate_cpu_allocation` in the hyperthread-packing strategy, once the
target socket has been validated. -/
theorem generate_HT (topo : CpuInfo) (n : Int) (used : List Int)
    (t : Option Int) (multi : Bool)
    (h : invalidTargetSocket topo t = false) :
    generate_cpu_allocation topo n used t multi true =
      (if ((buildAvailableCores topo t multi used).2 : Int) < n then
        Except.error AllocError.insufficientCores
      else
        if ((packCores (sorted_core_groups topo used t multi) n []).length :
            Int) < n then
          Except.error AllocError.internalError
        else
          Except.ok (pySortedInt
            (packCores (sorted_core_groups topo used t multi) n []))) := by
  unfold generate_cpu_allocation
  rw [h]
  simp

/-- Too few free cores under the filter make the single-thread strategy
fail with `InsufficientCores`. -/
theorem insufficient_cores_single (topo : CpuInfo) (n : Int)
    (used : List Int) (t : Option Int) (multi : Bool)
    (hv : invalidTargetSocket topo t = false)
    (hlt : (freeCoreCount topo used t multi : Int) < n) :
    generate_cpu_allocation topo n used t multi false =
      Except.error AllocError.insufficientCores := by
  rw [generate_noHT topo n used t multi hv]
  rw [available_single_cpus_length]
  rw [if_pos hlt]

/-! ### Claim theorems: the two selection strategies -/

/-- C4: with `use_hyperthreads=false` the allocator takes the smallest free
id of each core bucket in bucket order until `vcpu_count` are collected —
returning (sorted) the first `vcpu_count` entries of the one-per-core
candidate list — and fails with `InsufficientCores` when fewer free
physical cores than requested vCPUs remain under the filter; on the
scenario topology, 2 vCPUs on socket 0 with no multi-socket and no HT
yield `[0, 1]`. -/
theorem C4_single_thread_strategy :
    (∀ (topo : CpuInfo) (n : Int) (used : List Int) (t : Option Int)
        (multi : Bool), invalidTargetSocket topo t = false →
        (freeCoreCount topo used t multi : Int) < n →
        generate_cpu_allocation topo n used t multi false =
          Except.error AllocError.insufficientCores) ∧
    (∀ (topo : CpuInfo) (n : Int) (used : List Int) (t : Option Int)
        (multi : Bool), invalidTargetSocket topo t = false → 0 ≤ n →
        n ≤ (freeCoreCount topo used t multi : Int) →
        generate_cpu_allocation topo n used t multi false =
          Except.ok (pySortedInt
            ((available_single_cpus topo used t multi).take n.toNat))) ∧
    generate_cpu_allocation scenarioTopology 2 [] (some 0) false false =
      Except.ok [0, 1] := by
  refine ⟨fun topo n used t multi hv hlt =>
    insufficient_cores_single topo n used t multi hv hlt, ?_, rfl⟩
  intro topo n used t multi hv hn hge
  rw [generate_noHT topo n used t multi hv]
  rw [if_neg (by rw [available_single_cpus_length]; omega)]
  rw [pySlice, if_pos hn]

/-- Witness for C4: with all of socket 0 used and no multi-socket spill,
2 requested vCPUs fail with `InsufficientCores`. -/
theorem C4_witness :
    generate_cpu_allocation scenarioTopology 2 [0, 16, 1, 17] (some 0)
      false false = Except.error AllocError.insufficientCores :=
  C4_single_thread_strategy.1 scenarioTopology 2 [0, 16, 1, 17] (some 0)
    false (by decide) (by decide)

/-- C3: with `use_hyperthreads=true` the allocator fails fast with
`InsufficientCores` whenever the total number of post-filter available
logical threads is below the request; otherwise it consumes the sorted
core buckets in bucket order — all threads of a core before any thread of
the next — returning (sorted) the first `vcpu_count` CPUs of the bucket
concatenation; on the two-core topology `{0,16}`, `{1,17}` of socket 0,
3 vCPUs yield `[0, 1, 16]`. -/
theorem C3_hyperthread_strategy :
    (∀ (topo : CpuInfo) (n : Int) (used : List Int) (t : Option Int)
        (multi : Bool), invalidTargetSocket topo t = false →
        ((availableLogicalCpus topo used t multi).length : Int) < n →
        generate_cpu_allocation topo n used t multi true =
          Except.error AllocError.insufficientCores) ∧
    (∀ (topo : CpuInfo) (n : Int) (used : List Int) (t : Option Int)
        (multi : Bool), invalidTargetSocket topo t = false →
        n ≤ ((availableLogicalCpus topo used t multi).length : Int) →
        generate_cpu_allocation topo n used t multi true =
          Except.ok (pySortedInt
            ((bucketFlatten (sorted_core_groups topo used t multi)).take
              n.toNat))) ∧
    generate_cpu_allocation [(0, 0, 0), (16, 0, 0), (1, 1, 0), (17, 1, 0)]
      3 [] (some 0) false true = Except.ok [0, 1, 16] := by
  refine ⟨?_, ?_, rfl⟩
  · intro topo n used t multi hv hlt
    rw [generate_HT topo n used t multi hv, buildAvailableCores_count]
    rw [if_pos hlt]
  · intro topo n used t multi hv hge
    rw [generate_HT topo n used t multi hv, buildAvailableCores_count]
    rw [if_neg (by omega)]
    have hpack : packCores (sorted_core_groups topo used t multi) n [] =
        (bucketFlatten (sorted_core_groups topo used t multi)).take
          n.toNat := by
      rw [packCores_eq_take]
      simp
    have hflen :
        (bucketFlatten (sorted_core_groups topo used t multi)).length =
          (availableLogicalCpus topo used t multi).length :=
      (sorted_core_groups_flatten_perm topo used t multi).length_eq
    have hlen : (packCores (sorted_core_groups topo used t multi) n
        []).length = n.toNat := by
      rw [hpack, List.length_take]
      omega
    rw [if_neg (by rw [hlen]; omega), hpack]

/-- Witness for C3: requesting 5 vCPUs with only 4 available logical
threads fails with `InsufficientCores`. -/
theorem C3_witness :
    generate_cpu_allocation [(0, 0, 0), (16, 0, 0), (1, 1, 0), (17, 1, 0)]
      5 [] (some 0) false true = Except.error AllocError.insufficientCores :=
  C3_hyperthread_strategy.1 [(0, 0, 0), (16, 0, 0), (1, 1, 0), (17, 1, 0)]
    5 [] (some 0) false (by decide) (by decide)

/-- A sorted prefix of the grouped CPUs satisfies the allocator's
postcondition: right length, no duplicates, topology membership, free of
the used set, and strictly ascending. -/
theorem take_flatten_post (topo : CpuInfo) (used : List Int)
    (t : Option Int) (multi : Bool) (base : List Int) (n : Int)
    (hnd : (topo.map (fun e => e.1)).Nodup) (hpos : 0 < n)
    (hsub : base.Sublist
      (bucketFlatten (sorted_core_groups topo used t multi)))
    (hlen : base.length = n.toNat) :
    ((pySortedInt base).length : Int) = n ∧ (pySortedInt base).Nodup ∧
    (∀ c ∈ pySortedInt base, c ∈ topo.map (fun e => e.1)) ∧
    (∀ c ∈ pySortedInt base, c ∉ used) ∧
    List.Sorted (fun a b => a < b) (pySortedInt base) := by
  have hALnd := availableLogicalCpus_nodup topo used t multi hnd
  have hFLperm := sorted_core_groups_flatten_perm topo used t multi
  have hFLnd : (bucketFlatten (sorted_core_groups topo used t multi)).Nodup :=
    hFLperm.nodup_iff.mpr hALnd
  have hbnd : base.Nodup := hsub.nodup hFLnd
  have hperm : List.Perm (pySortedInt base) base :=
    List.perm_insertionSort intLe base
  have hmem : ∀ c ∈ base, c ∈ availableLogicalCpus topo used t multi :=
    fun c hc => hFLperm.mem_iff.mp (hsub.subset hc)
  refine ⟨?_, ?_, ?_, ?_, ?_⟩
  · rw [hperm.length_eq, hlen]
    omega
  · exact hperm.nodup_iff.mpr hbnd
  · intro c hc
    exact (availableLogicalCpus_mem topo used t multi c
      (hmem c (hperm.mem_iff.mp hc))).1
  · intro c hc
    exact (availableLogicalCpus_mem topo used t multi c
      (hmem c (hperm.mem_iff.mp hc))).2
  · have hsorted : List.Sorted (fun a b => a ≤ b) (pySortedInt base) :=
      List.sorted_insertionSort intLe base
    exact hsorted.lt_of_le (hperm.nodup_iff.mpr hbnd)

/-- C10: on any topology with pairwise distinct logical ids, any used set
and any positive request, a successful allocation returns exactly
`vcpu_count` pairwise-distinct logical ids of the topology, none of them
used, in strictly ascending order. -/
theorem C10_allocation_postcondition :
    ∀ (topo : CpuInfo) (n : Int) (used : List Int) (t : Option Int)
      (multi ht : Bool) (res : List Int),
      (topo.map (fun e => e.1)).Nodup → 0 < n →
      generate_cpu_allocation topo n used t multi ht = Except.ok res →
      (res.length : Int) = n ∧ res.Nodup ∧
      (∀ c ∈ res, c ∈ topo.map (fun e => e.1)) ∧
      (∀ c ∈ res, c ∉ used) ∧ List.Sorted (fun a b => a < b) res := by
  intro topo n used t multi ht res hnd hpos hok
  by_cases hv : invalidTargetSocket topo t = true
  · unfold generate_cpu_allocation at hok
    rw [if_pos hv] at hok
    exact absurd hok (by simp)
  have hv' : invalidTargetSocket topo t = false := by simpa using hv
  cases ht with
  | false =>
    rw [generate_noHT topo n used t multi hv'] at hok
    by_cases hlt :
        ((available_single_cpus topo used t multi).length : Int) < n
    · rw [if_pos hlt] at hok
      exact absurd hok (by simp)
    · rw [if_neg hlt] at hok
      simp only [Except.ok.injEq] at hok
      subst hok
      have hslice : pySlice (available_single_cpus topo used t multi) n =
          (available_single_cpus topo used t multi).take n.toNat := by
        rw [pySlice, if_pos (le_of_lt hpos)]
      rw [hslice]
      apply take_flatten_post topo used t multi _ n hnd hpos
      · exact (List.take_sublist _ _).trans (filterMap_head_sublist _)
      · rw [List.length_take]
        omega
  | true =>
    rw [generate_HT topo n used t multi hv'] at hok
    by_cases h1 : ((buildAvailableCores topo t multi used).2 : Int) < n
    · rw [if_pos h1] at hok
      exact absurd hok (by simp)
    · rw [if_neg h1] at hok
      by_cases h2 : ((packCores (sorted_core_groups topo used t multi)
          n []).length : Int) < n
      · rw [if_pos h2] at hok
        exact absurd hok (by simp)
      · rw [if_neg h2] at hok
        simp only [Except.ok.injEq] at hok
        subst hok
        have hpack : packCores (sorted_core_groups topo used t multi) n [] =
            (bucketFlatten
              (sorted_core_groups topo used t multi)).take n.toNat := by
          rw [packCores_eq_take]
          simp
        rw [hpack]
        apply take_flatten_post topo used t multi _ n hnd hpos
        · exact List.take_sublist _ _
        · rw [List.length_take]
          have hflen :
              (bucketFlatten (sorted_core_groups topo used t multi)).length =
                (availableLogicalCpus topo used t multi).length :=
            (sorted_core_groups_flatten_perm topo used t multi).length_eq
          have hcnt := buildAvailableCores_count topo t multi used
          omega

/-- Witness for C10 on the scenario topology: 2 vCPUs on socket 0 return
`[0, 1]`, which satisfies every clause of the postcondition. -/
theorem C10_witness :
    ((([0, 1] : List Int).length : Int) = 2) ∧
    ([0, 1] : List Int).Nodup ∧
    (∀ c ∈ ([0, 1] : List Int), c ∈ scenarioTopology.map (fun e => e.1)) ∧
    (∀ c ∈ ([0, 1] : List Int), c ∉ ([] : List Int)) ∧
    List.Sorted (fun a b => a < b) ([0, 1] : List Int) :=
  C10_allocation_postcondition scenarioTopology 2 [] (some 0) false false
    [0, 1] (by decide) (by decide) rfl

/-! ### Lemmas about the command handlers -/

/-- A Python slice `l[:n]` is a sublist of `l`. -/
theorem pySlice_sublist {α : Type} (l : List α) (n : Int) :
    (pySlice l n).Sublist l := by
  rw [pySlice]
  split
  · exact List.take_sublist _ _
  · exact List.take_sublist _ _

/-- Every CPU returned by a successful allocation is a post-filter
available CPU; in particular it is not in the used set. -/
theorem generate_ok_subset (topo : CpuInfo) (n : Int) (used : List Int)
    (t : Option Int) (multi ht : Bool) (res : List Int)
    (hok : generate_cpu_allocation topo n used t multi ht = Except.ok res) :
    ∀ c ∈ res, c ∈ availableLogicalCpus topo used t multi := by
  by_cases hv : invalidTargetSocket topo t = true
  · unfold generate_cpu_allocation at hok
    rw [if_pos hv] at hok
    exact absurd hok (by simp)
  have hv' : invalidTargetSocket topo t = false := by simpa using hv
  have hFLperm := sorted_core_groups_flatten_perm topo used t multi
  cases ht with
  | false =>
    rw [generate_noHT topo n used t multi hv'] at hok
    by_cases hlt :
        ((available_single_cpus topo used t multi).length : Int) < n
    · rw [if_pos hlt] at hok
      exact absurd hok (by simp)
    · rw [if_neg hlt] at hok
      simp only [Except.ok.injEq] at hok
      subst hok
      intro c hc
      have hc1 := (List.perm_insertionSort intLe _).mem_iff.mp hc
      have hc2 := (pySlice_sublist _ n).subset hc1
      have hc3 := (filterMap_head_sublist _).subset hc2
      exact hFLperm.mem_iff.mp hc3
  | true =>
    rw [generate_HT topo n used t multi hv'] at hok
    by_cases h1 : ((buildAvailableCores topo t multi used).2 : Int) < n
    · rw [if_pos h1] at hok
      exact absurd hok (by simp)
    · rw [if_neg h1] at hok
      by_cases h2 : ((packCores (sorted_core_groups topo used t multi)
          n []).length : Int) < n
      · rw [if_pos h2] at hok
        exact absurd hok (by simp)
      · rw [if_neg h2] at hok
        simp only [Except.ok.injEq] at hok
        subst hok
        intro c hc
        have hc1 := (List.perm_insertionSort intLe _).mem_iff.mp hc
        rw [packCores_eq_take] at hc1
        simp only [List.nil_append] at hc1
        have hc2 := (List.take_sublist _ _).subset hc1
        exact hFLperm.mem_iff.mp hc2

/-- A successful automatic add appends the new VM with a CPU list disjoint
from the used set of the prior record. -/
theorem handle_add_ok (topo : CpuInfo) (vm : String) (n : Int) (sock : Int)
    (multi ht : Bool) (data d' : PinningMap)
    (h : handle_add topo vm n sock multi ht data = Except.ok d') :
    ∃ l, d' = data ++ [(vm, l)] ∧
      ∀ x ∈ l, x ∉ get_used_logical_cpus data := by
  unfold handle_add at h
  by_cases h1 : n ≤ 0
  · rw [if_pos h1] at h
    exact absurd h (by simp)
  rw [if_neg h1] at h
  by_cases h2 : hasVM data vm = true
  · rw [if_pos h2] at h
    exact absurd h (by simp)
  rw [if_neg h2] at h
  cases hgen : generate_cpu_allocation topo n (get_used_logical_cpus data)
      (some sock) multi ht with
  | error e =>
    rw [hgen] at h
    exact absurd h (by simp)
  | ok assigned =>
    rw [hgen] at h
    simp only [Except.ok.injEq] at h
    refine ⟨assigned, h.symm, fun x hx => ?_⟩
    exact (availableLogicalCpus_mem topo (get_used_logical_cpus data)
      (some sock) multi x
      (generate_ok_subset topo n (get_used_logical_cpus data) (some sock)
        multi ht assigned hgen x hx)).2

/-- A successful manual add appends the new VM with a CPU list disjoint
from the used set of the prior record. -/
theorem handle_add_manual_ok (topo : CpuInfo) (vm : String)
    (cl : String) (data d' : PinningMap)
    (h : handle_add_manual topo vm cl data = Except.ok d') :
    ∃ l, d' = data ++ [(vm, l)] ∧
      ∀ x ∈ l, x ∉ get_used_logical_cpus data := by
  unfold handle_add_manual at h
  by_cases h1 : hasVM data vm = true
  · rw [if_pos h1] at h
    exact absurd h (by simp)
  rw [if_neg h1] at h
  cases hp : parseCpuList cl with
  | none =>
    rw [hp] at h
    exact absurd h (by simp)
  | some assigned =>
    rw [hp] at h
    dsimp only at h
    by_cases h2 : assigned = []
    · rw [if_pos h2] at h
      exact absurd h (by simp)
    rw [if_neg h2] at h
    by_cases h3 : assigned.length ≠ assigned.dedup.length
    · rw [if_pos h3] at h
      exact absurd h (by simp)
    rw [if_neg h3] at h
    by_cases h4 :
        assigned.filter
            (fun c => c ∉ topo.map (fun e => e.1)) ≠ [] ∨
        assigned.filter
            (fun c => c ∈ get_used_logical_cpus data) ≠ []
    · rw [if_pos h4] at h
      exact absurd h (by simp)
    · rw [if_neg h4] at h
      simp only [Except.ok.injEq] at h
      push_neg at h4
      refine ⟨assigned, h.symm, fun x hx hxu => ?_⟩
      have hconf := h4.2
      have : x ∈ assigned.filter
          (fun c => c ∈ get_used_logical_cpus data) :=
        List.mem_filter.mpr ⟨hx, by simpa using hxu⟩
      rw [hconf] at this
      exact absurd this (List.not_mem_nil x)

/-- A successful add of either kind appends one VM whose CPU list is
disjoint from the used set of the prior record. -/
theorem runAdd_ok (data : PinningMap) (op : AddOp) (d' : PinningMap)
    (h : runAdd data op = Except.ok d') :
    ∃ vm l, d' = data ++ [(vm, l)] ∧
      ∀ x ∈ l, x ∉ get_used_logical_cpus data := by
  cases op with
  | auto topo vm n sock multi ht =>
    obtain ⟨l, h1, h2⟩ := handle_add_ok topo vm n sock multi ht data d' h
    exact ⟨vm, l, h1, h2⟩
  | manual topo vm cl =>
    obtain ⟨l, h1, h2⟩ := handle_add_manual_ok topo vm cl data d' h
    exact ⟨vm, l, h1, h2⟩

/-- Appending a VM whose list avoids the current used set preserves
pairwise disjointness of the recorded lists. -/
theorem DisjointLists_append (data : PinningMap) (vm : String)
    (l : List Int) (hd : DisjointLists data)
    (h : ∀ x ∈ l, x ∉ get_used_logical_cpus data) :
    DisjointLists (data ++ [(vm, l)]) := by
  unfold DisjointLists at hd ⊢
  rw [List.map_append, List.pairwise_append]
  refine ⟨hd, by simp, ?_⟩
  intro l1 h1 l2 h2
  simp only [List.map_cons, List.map_nil, List.mem_singleton] at h2
  subst h2
  intro x hx hxl
  refine h x hxl ?_
  unfold get_used_logical_cpus
  exact List.mem_flatten.mpr ⟨l1, h1, hx⟩

/-! ### Claim theorem: no double allocation -/

/-- C2: starting from any record whose CPU lists are pairwise disjoint,
every sequence of successful add operations (automatic or manual, each
against its own topology) preserves pairwise disjointness — no logical CPU
is ever recorded for two VMs — because each newly assigned list is disjoint
from the used set derived from the existing record. -/
theorem C2_no_double_allocation :
    (∀ (init : PinningMap) (ops : List AddOp) (final : PinningMap),
        DisjointLists init → runAdds init ops = Except.ok final →
        DisjointLists final) ∧
    (∀ (data : PinningMap) (op : AddOp) (d' : PinningMap),
        runAdd data op = Except.ok d' →
        ∃ vm l, d' = data ++ [(vm, l)] ∧
          ∀ x ∈ l, x ∉ get_used_logical_cpus data) := by
  constructor
  · intro init ops
    induction ops generalizing init with
    | nil =>
      intro final hd h
      simp only [runAdds, Except.ok.injEq] at h
      subst h
      exact hd
    | cons op rest ih =>
      intro final hd h
      rw [runAdds] at h
      cases hstep : runAdd init op with
      | error e =>
        rw [hstep] at h
        exact absurd h (by simp)
      | ok d =>
        rw [hstep] at h
        obtain ⟨vm, l, hd', hdisj⟩ := runAdd_ok init op d hstep
        subst hd'
        exact ih _ final (DisjointLists_append init vm l hd hdisj) h
  · exact runAdd_ok

/-- Witness for C2: from the empty record, an automatic add of 2 vCPUs and
a manual add of `"2,3"` on the scenario topology leave pairwise disjoint
lists. -/
theorem C2_witness :
    DisjointLists [("a", [0, 1]), ("b", [2, 3])] :=
  C2_no_double_allocation.1 []
    [AddOp.auto scenarioTopology "a" 2 0 false false,
     AddOp.manual scenarioTopology "b" "2,3"]
    [("a", [0, 1]), ("b", [2, 3])]
    (by simp [DisjointLists]) rfl

/-! ### Lemmas about the allocator: socket preference -/

/-- A present target socket passes the validation. -/
theorem invalidTargetSocket_of_mem (topo : CpuInfo) (S : Int)
    (h : S ∈ available_sockets topo) :
    invalidTargetSocket topo (some S) = false := by
  simp [invalidTargetSocket, h]

/-- `l[:n]` is a prefix of `l`. -/
theorem pySlice_eq_take {α : Type} (l : List α) (n : Int) :
    ∃ m, pySlice l n = l.take m := by
  rw [pySlice]
  split
  · exact ⟨n.toNat, rfl⟩
  · exact ⟨l.length - (-n).toNat, rfl⟩

/-- In a list sorted by a relation under which satisfying `p` propagates to
the left, all elements satisfying `p` come first. -/
theorem pairwise_filter_split {α : Type} (R : α → α → Prop) (p : α → Bool)
    (hcl : ∀ x y, R x y → p y = true → p x = true) :
    ∀ l : List α, l.Pairwise R →
      l = l.filter p ++ l.filter (fun a => !(p a)) := by
  intro l
  induction l with
  | nil => simp
  | cons a rest ih =>
    intro hpw
    obtain ⟨ha, hrest⟩ := List.pairwise_cons.mp hpw
    by_cases hpa : p a = true
    · simp only [List.filter_cons, hpa, Bool.not_true, List.cons_append]
      exact congrArg (a :: ·) (ih hrest)
    · have hpa' : p a = false := by simpa using hpa
      have hnone : rest.filter p = [] := by
        rw [List.filter_eq_nil_iff]
        intro x hx hpx
        have := hcl a x (ha x hx) hpx
        rw [hpa'] at this
        exact Bool.false_ne_true this
      have hall : rest.filter (fun a => !(p a)) = rest := by
        rw [List.filter_eq_self]
        intro x hx
        have hx' : ¬ p x = true := fun hpx => by
          have := hcl a x (ha x hx) hpx
          rw [hpa'] at this
          exact Bool.false_ne_true this
        simp [hx']
      simp [List.filter_cons, hpa', hnone, hall]

/-- In the group ordering with a preferred socket, being on the preferred
socket propagates to the left. -/
theorem groupRel_pref_closed (S : Int) (x y : (Int × Int) × List Int)
    (hR : groupRel (some S) x y) (hpy : (x.1.1 == S) = false)
    (hpyy : (y.1.1 == S) = true) : False := by
  unfold groupRel keyLe sort_key at hR
  simp [hpy, hpyy] at hR

/-- Filtering the socket-`S` buckets out of a bucket append. -/
theorem addToCore_filter_socket (S : Int) (k : Int × Int) (c : Int) :
    ∀ m : List ((Int × Int) × List Int),
      (addToCore m k c).filter (fun kv => kv.1.1 == S) =
        (if k.1 = S then
          addToCore (m.filter (fun kv => kv.1.1 == S)) k c
        else m.filter (fun kv => kv.1.1 == S)) := by
  intro m
  induction m with
  | nil =>
    by_cases hk : k.1 = S
    · simp [addToCore, List.filter_cons, hk]
    · simp [addToCore, List.filter_cons, hk]
  | cons kv rest ih =>
    obtain ⟨k', v⟩ := kv
    rw [addToCore]
    by_cases h : k' = k
    · subst h
      rw [if_pos rfl]
      by_cases hk : k'.1 = S
      · rw [if_pos hk]
        have hstep : (List.filter (fun kv => kv.1.1 == S) ((k', v) :: rest)) =
            (k', v) :: List.filter (fun kv => kv.1.1 == S) rest := by
          simp [List.filter_cons, hk]
        rw [hstep, addToCore, if_pos rfl]
        simp [List.filter_cons, hk]
      · rw [if_neg hk]
        simp [List.filter_cons, hk]
    · rw [if_neg h]
      by_cases hk' : k'.1 = S
      · have hstepL : List.filter (fun kv => kv.1.1 == S)
            ((k', v) :: addToCore rest k c) =
            (k', v) :: List.filter (fun kv => kv.1.1 == S)
              (addToCore rest k c) := by
          simp [List.filter_cons, hk']
        have hstepR : List.filter (fun kv => kv.1.1 == S) ((k', v) :: rest) =
            (k', v) :: List.filter (fun kv => kv.1.1 == S) rest := by
          simp [List.filter_cons, hk']
        rw [hstepL, hstepR, ih]
        by_cases hk : k.1 = S
        · rw [if_pos hk, if_pos hk]
          rw [addToCore, if_neg h]
        · rw [if_neg hk, if_neg hk]
      · have hstepL : List.filter (fun kv => kv.1.1 == S)
            ((k', v) :: addToCore rest k c) =
            List.filter (fun kv => kv.1.1 == S) (addToCore rest k c) := by
          simp [List.filter_cons, hk']
        have hstepR : List.filter (fun kv => kv.1.1 == S) ((k', v) :: rest) =
            List.filter (fun kv => kv.1.1 == S) rest := by
          simp [List.filter_cons, hk']
        rw [hstepL, hstepR, ih]

/-- The socket-`S` buckets of the unrestricted build are exactly the
buckets of the socket-`S`-restricted build. -/
theorem foldl_buildStep_filter_socket (S : Int) (used : List Int)
    (topo : CpuInfo) :
    ∀ (accT accF : List ((Int × Int) × List Int) × Nat),
      accT.1.filter (fun kv => kv.1.1 == S) = accF.1 →
      (topo.foldl (buildStep (some S) true used) accT).1.filter
          (fun kv => kv.1.1 == S) =
        (topo.foldl (buildStep (some S) false used) accF).1 := by
  induction topo with
  | nil =>
    intro accT accF hinv
    simpa using hinv
  | cons e rest ih =>
    intro accT accF hinv
    rw [List.foldl_cons, List.foldl_cons, buildStep_eq, buildStep_eq]
    by_cases hu : e.1 ∈ used
    · have hkT : keepEntry (some S) true used e = false := by
        simp [keepEntry, hu]
      have hkF : keepEntry (some S) false used e = false := by
        simp [keepEntry, hu]
      rw [hkT, hkF]
      simp only [Bool.false_eq_true, if_false]
      exact ih accT accF hinv
    · have hkT : keepEntry (some S) true used e = true := by
        simp [keepEntry, skipBySocket, hu]
      rw [hkT]
      simp only [if_true]
      by_cases hs : e.2.2 = S
      · have hkF : keepEntry (some S) false used e = true := by
          simp [keepEntry, skipBySocket, hs, hu]
        rw [hkF]
        simp only [if_true]
        apply ih
        rw [addToCore_filter_socket]
        have hck : (coreKeyOf e).1 = S := hs
        rw [if_pos hck, hinv]
      · have hkF : keepEntry (some S) false used e = false := by
          simp [keepEntry, skipBySocket, hs, hu]
        rw [hkF]
        simp only [Bool.false_eq_true, if_false]
        apply ih
        rw [addToCore_filter_socket]
        have hck : ¬ (coreKeyOf e).1 = S := hs
        rw [if_neg hck, hinv]

/-- Bucket-level form: filtering the unrestricted build to socket `S`
yields the restricted build. -/
theorem buildAvailableCores_filter_socket (topo : CpuInfo) (S : Int)
    (used : List Int) :
    (buildAvailableCores topo (some S) true used).1.filter
        (fun kv => kv.1.1 == S) =
      (buildAvailableCores topo (some S) false used).1 := by
  exact foldl_buildStep_filter_socket S used topo ([], 0) ([], 0) rfl

/-- With a preferred socket, the sorted groups list the preferred socket's
groups first: it splits as the socket-`S` groups followed by the rest. -/
theorem sorted_core_groups_pref_split (topo : CpuInfo) (used : List Int)
    (S : Int) :
    sorted_core_groups topo used (some S) true =
      (sorted_core_groups topo used (some S) true).filter
          (fun g => g.1.1 == S) ++
        (sorted_core_groups topo used (some S) true).filter
          (fun g => !(g.1.1 == S)) := by
  apply pairwise_filter_split (groupRel (some S)) (fun g => g.1.1 == S)
  · intro x y hR hpy
    by_contra hpx
    have hpx' : (x.1.1 == S) = false := by simpa using hpx
    exact groupRel_pref_closed S x y hR hpx' hpy
  · exact List.sorted_insertionSort (groupRel (some S)) _

/-- The socket-`S` part of the sorted groups is, up to permutation, the
socket-`S`-restricted build with sorted buckets. -/
theorem pref_filter_perm (topo : CpuInfo) (used : List Int) (S : Int) :
    List.Perm
      ((sorted_core_groups topo used (some S) true).filter
        (fun g => g.1.1 == S))
      ((buildAvailableCores topo (some S) false used).1.map
        (fun kv => (kv.1, pySortedInt kv.2))) := by
  unfold sorted_core_groups
  refine ((List.perm_insertionSort (groupRel (some S)) _).filter _).trans ?_
  rw [List.filter_map]
  have hpred : ((fun g => g.1.1 == S) ∘
      (fun kv : (Int × Int) × List Int => (kv.1, pySortedInt kv.2))) =
      (fun kv : (Int × Int) × List Int => kv.1.1 == S) := rfl
  rw [hpred, buildAvailableCores_filter_socket]

/-- Head membership is invariant under permutation of the groups. -/
theorem mem_filterMap_head_of_perm
    {L L' : List ((Int × Int) × List Int)} (h : List.Perm L L') (c : Int) :
    (c ∈ L.filterMap (fun g => g.2.head?)) ↔
      c ∈ L'.filterMap (fun g => g.2.head?) := by
  simp only [List.mem_filterMap]
  constructor
  · rintro ⟨g, hg, hgc⟩
    exact ⟨g, h.mem_iff.mp hg, hgc⟩
  · rintro ⟨g, hg, hgc⟩
    exact ⟨g, h.mem_iff.mpr hg, hgc⟩

/-! ### Claim theorem: socket preference monotonicity -/

/-- C5: with the single-thread strategy, when `allow_multi_socket=false`
and the target socket `S` has fewer free cores than requested, allocation
fails with `InsufficientCores` even if other sockets have capacity; with
`allow_multi_socket=true` and enough free cores host-wide, allocation
succeeds, and the single-thread-selectable CPUs of socket `S` (the lowest
free thread of each free `S`-core) are exhausted before any CPU of another
socket is taken: either all of them are in the result, or the result draws
only from them. -/
theorem C5_socket_preference :
    ∀ (topo : CpuInfo) (used : List Int) (S : Int) (n : Int),
      S ∈ available_sockets topo →
      ((freeCoreCount topo used (some S) false : Int) < n →
        generate_cpu_allocation topo n used (some S) false false =
          Except.error AllocError.insufficientCores) ∧
      ((n : Int) ≤ (freeCoreCount topo used (some S) true : Int) →
        ∃ res, generate_cpu_allocation topo n used (some S) true false =
            Except.ok res ∧
          ((∀ c ∈ socketSingleCpus topo used S, c ∈ res) ∨
           (∀ c ∈ res, c ∈ socketSingleCpus topo used S))) := by
  intro topo used S n hS
  have hv := invalidTargetSocket_of_mem topo S hS
  constructor
  · intro hlt
    exact insufficient_cores_single topo n used (some S) false hv hlt
  · intro hge
    rw [generate_noHT topo n used (some S) true hv]
    have hnlt :
        ¬ (((available_single_cpus topo used (some S) true).length : Int)
          < n) := by
      rw [available_single_cpus_length]
      omega
    rw [if_neg hnlt]
    refine ⟨_, rfl, ?_⟩
    obtain ⟨m, hm⟩ :=
      pySlice_eq_take (available_single_cpus topo used (some S) true) n
    have hsg := sorted_core_groups_pref_split topo used S
    have hsplit : available_single_cpus topo used (some S) true =
        ((sorted_core_groups topo used (some S) true).filter
            (fun g => g.1.1 == S)).filterMap (fun g => g.2.head?) ++
        ((sorted_core_groups topo used (some S) true).filter
            (fun g => !(g.1.1 == S))).filterMap (fun g => g.2.head?) := by
      unfold available_single_cpus
      conv_lhs => rw [hsg]
      rw [List.filterMap_append]
    have hAmem : ∀ c,
        (c ∈ ((sorted_core_groups topo used (some S) true).filter
            (fun g => g.1.1 == S)).filterMap (fun g => g.2.head?)) ↔
          c ∈ socketSingleCpus topo used S := by
      intro c
      unfold socketSingleCpus
      exact mem_filterMap_head_of_perm (pref_filter_perm topo used S) c
    have hresmem : ∀ c,
        (c ∈ pySortedInt
            (pySlice (available_single_cpus topo used (some S) true) n)) ↔
          c ∈ (available_single_cpus topo used (some S) true).take m := by
      intro c
      rw [hm]
      exact (List.perm_insertionSort intLe _).mem_iff
    by_cases hcase : m ≤
        (((sorted_core_groups topo used (some S) true).filter
          (fun g => g.1.1 == S)).filterMap (fun g => g.2.head?)).length
    · right
      intro c hc
      have hc1 := (hresmem c).mp hc
      rw [hsplit, List.take_append_of_le_length hcase] at hc1
      exact (hAmem c).mp ((List.take_sublist _ _).subset hc1)
    · left
      intro c hcS
      have hcA := (hAmem c).mpr hcS
      refine (hresmem c).mpr ?_
      rw [hsplit, List.take_append_eq_append_take,
        List.take_of_length_le (le_of_not_le hcase)]
      exact List.mem_append_left _ hcA

/-- Witness for C5 on the scenario topology with all of socket 0 used:
without multi-socket the request for 2 vCPUs fails with
`InsufficientCores`; with multi-socket it succeeds by spilling to socket 1,
socket 0 contributing no remaining selectable CPU. -/
theorem C5_witness :
    generate_cpu_allocation scenarioTopology 2 [0, 16, 1, 17] (some 0)
        false false = Except.error AllocError.insufficientCores ∧
    ∃ res, generate_cpu_allocation scenarioTopology 2 [0, 16, 1, 17]
          (some 0) true false = Except.ok res ∧
      ((∀ c ∈ socketSingleCpus scenarioTopology [0, 16, 1, 17] 0,
          c ∈ res) ∨
       (∀ c ∈ res,
          c ∈ socketSingleCpus scenarioTopology [0, 16, 1, 17] 0)) := by
  have h := C5_socket_preference scenarioTopology [0, 16, 1, 17] 0 2
    (by decide)
  exact ⟨h.1 (by decide), h.2 (by decide)⟩

end Pinvirt
